import Mathlib

/-
Verification of the peb_dx_chart synchronization and delivery pipeline.

The definitions below are shallow embeddings of:
  - src/c/main.c        : the device-side receiver state machine
                          (inbox_received_callback) and the chart renderer
                          (draw_glucose_line and its coordinate helpers);
  - src/pkjs/index.js   : the reading cache merge (mergeCache), the wire
                          encoder (encodeReadingsToBytes) and the chunked
                          sender (sendChunks);
  - src/pkjs/dexcom.js  : session management (the onload handlers of
                          _getAccountId / _getSessionId) and the bounded
                          re-authentication logic (_handleServerError).

JavaScript numbers under bitwise operators follow ToInt32 / ToUint32
semantics; these are modelled explicitly (toInt32, toUint32, jsAnd,
jsShr).  C int division truncates toward zero and is modelled with
Int.tdiv.  The device reading buffer is modelled as a total function on
integer indices so that the out-of-bounds write reachable through the
chunk path (negative startIndex) is representable.
-/

namespace PebDx

/-! JS 32-bit numeric conversions (ECMAScript ToInt32 / ToUint32). -/

/-- Low 32 bits of an integer, reinterpreted as a signed 32-bit value,
as ECMAScript ToInt32 does. -/
def toInt32 (n : Int) : Int :=
  let m := n % 4294967296
  if m < 2147483648 then m else m - 4294967296

/-- Low 32 bits of an integer as a natural number, as ToUint32 does. -/
def toUint32 (n : Int) : Nat := (n % 4294967296).toNat

/-- JS bitwise and: both operands are converted to 32-bit words and the
bitwise and of the words is read back as a signed 32-bit integer. -/
def jsAnd (a b : Int) : Int :=
  toInt32 ((Nat.land (toUint32 a) (toUint32 b) : Nat) : Int)

/-- JS signed right shift: the left operand is converted to a signed
32-bit integer and arithmetically shifted right; an arithmetic right
shift by k bits is floor division by 2 ^ k. -/
def jsShr (a : Int) (k : Nat) : Int := toInt32 a / 2 ^ k

/-! Wire encoder, from encodeReadingsToBytes in src/pkjs/index.js. -/

/-- encodeReadingsToBytes: each reading becomes 6 bytes, the 16-bit
masked value little-endian followed by the 4 timestamp bytes
little-endian, concatenated in input order.  An index past the end of
the timestamps array contributes 0 bytes' worth of value, matching
ToInt32 of undefined (NaN) in JS. -/
def encodeReadingsToBytes (values timestamps : List Int) : List Int :=
  ((List.range values.length).map (fun i =>
    let value := values.getD i 0
    let ts := timestamps.getD i 0
    let v := jsAnd value 65535
    [jsAnd v 255, jsAnd (jsShr v 8) 255,
     jsAnd ts 255, jsAnd (jsShr ts 8) 255,
     jsAnd (jsShr ts 16) 255, jsAnd (jsShr ts 24) 255])).flatten

/-! Device receiver, from inbox_received_callback in src/c/main.c. -/

/-- One glucose reading as stored in the device buffer (struct
GlucoseReading in main.c).  The timestamp field models the unsigned
32-bit value assembled from the four wire bytes. -/
structure GlucoseReading where
  value : Int
  timestamp : Nat
  deriving Repr, DecidableEq

/-- Reinterpret the low 16 bits of a natural number as a signed 16-bit
value, as the (int16_t) cast in the chunk decode loop does. -/
def toInt16 (n : Nat) : Int :=
  let m := n % 65536
  if m < 32768 then (m : Int) else (m : Int) - 65536

def MAX_READINGS : Nat := 36

def BYTES_PER_READING : Nat := 6

/-- Decode the 6-byte record at byte offset o of a chunk payload (body
of the chunk loop): value = (int16_t)(data[o] | data[o+1] << 8) and
timestamp = data[o+2] | data[o+3] << 8 | data[o+4] << 16 |
data[o+5] << 24. -/
def decodeAt (data : List Nat) (o : Nat) : GlucoseReading :=
  { value := toInt16 (data.getD o 0 + 256 * data.getD (o + 1) 0)
    timestamp := data.getD (o + 2) 0 + 256 * data.getD (o + 3) 0
      + 65536 * data.getD (o + 4) 0 + 16777216 * data.getD (o + 5) 0 }

/-- The slot writes performed by the chunk branch of
inbox_received_callback: one write per decoded record, at logical slot
startIndex + i, stopping at the first i with startIndex + i >=
MAX_READINGS (the loop breaks there).  The loop checks no lower bound,
so a negative slot index produces a write. -/
def chunkWrites (data : List Nat) (startIndex : Int) :
    List (Int × GlucoseReading) :=
  ((List.range (data.length / BYTES_PER_READING)).takeWhile
    (fun (i : Nat) => decide (startIndex + (i : Int) < (MAX_READINGS : Int)))).map
    (fun (i : Nat) =>
      (startIndex + (i : Int), decodeAt data (i * BYTES_PER_READING)))

/-- Device-side receiver state: the C globals of main.c.  renders counts
the calls to update_chart made by the completion check. -/
structure ReceiverState where
  readings : Int → GlucoseReading
  reading_count : Int
  expected_count : Int
  received_count : Int
  receiving_data : Bool
  renders : Nat

/-- Write a record into one buffer slot (s_readings[idx] = record). -/
def writeSlot (buf : Int → GlucoseReading) (i : Int) (r : GlucoseReading) :
    Int → GlucoseReading :=
  fun j => if j = i then r else buf j

/-- Perform a list of slot writes left to right. -/
def applyWrites (ws : List (Int × GlucoseReading))
    (buf : Int → GlucoseReading) : Int → GlucoseReading :=
  ws.foldl (fun b p => writeSlot b p.1 p.2) buf

/-- The three message shapes dispatched by inbox_received_callback. -/
inductive Msg where
  | header (count : Int)
  | chunk (data : List Nat) (startIndex : Int)
  | single (index : Int) (value : Int) (timestamp : Nat)

/-- The completion check shared by the chunk and single-record paths:
if (s_received_count >= s_expected_count) set s_reading_count, clear
s_receiving_data and call update_chart. -/
def checkComplete (s : ReceiverState) : ReceiverState :=
  if s.expected_count ≤ s.received_count then
    { s with reading_count := s.expected_count
             receiving_data := false
             renders := s.renders + 1 }
  else s

/-- inbox_received_callback of main.c, one message at a time.  A header
clamps the count to MAX_READINGS, zeroes the counters and clears the 36
buffer slots (memset).  A chunk performs its slot writes, adds the
number of writes to s_received_count, then runs the completion check.  A
single-record message writes one slot when 0 <= index < MAX_READINGS,
increments s_received_count and runs the completion check; otherwise it
does nothing. -/
def inbox_received (s : ReceiverState) : Msg → ReceiverState
  | .header count =>
      let c := if (MAX_READINGS : Int) < count then (MAX_READINGS : Int) else count
      { s with expected_count := c
               received_count := 0
               receiving_data := true
               readings := fun i =>
                 if 0 ≤ i ∧ i < (MAX_READINGS : Int) then ⟨0, 0⟩
                 else s.readings i }
  | .chunk data startIndex =>
      let ws := chunkWrites data startIndex
      checkComplete { s with readings := applyWrites ws s.readings
                             received_count := s.received_count + ws.length }
  | .single index value timestamp =>
      if 0 ≤ index ∧ index < (MAX_READINGS : Int) then
        checkComplete
          { s with readings := writeSlot s.readings index ⟨value, timestamp⟩
                   received_count := s.received_count + 1 }
      else s

/-- The initial values of the C globals. -/
def initReceiver : ReceiverState :=
  { readings := fun _ => ⟨0, 0⟩
    reading_count := 0
    expected_count := 0
    received_count := 0
    receiving_data := false
    renders := 0 }

/-! Chart renderer geometry, from src/c/main.c.  C int division truncates
toward zero: Int.tdiv. -/

def CHART_START_X : Int := 30

def CHART_START_Y : Int := 10

def CHART_WIDTH : Int := 114

def CHART_HEIGHT : Int := 148

def TIME_SPACING : Int := 4

/-- chart_left of main.c. -/
def chart_left (invert : Bool) : Int := if invert then 0 else CHART_START_X

/-- bg_to_x of main.c: map a BG value to an x pixel. -/
def bg_to_x (invert : Bool) (bg_value min_bg bg_range : Int) : Int :=
  let left := chart_left invert
  if invert then
    left + CHART_WIDTH - Int.tdiv ((bg_value - min_bg) * CHART_WIDTH) bg_range
  else
    left + Int.tdiv ((bg_value - min_bg) * CHART_WIDTH) bg_range

/-- index_to_y of main.c: map a reading index to a y pixel. -/
def index_to_y (invert : Bool) (index : Int) : Int :=
  if invert then CHART_START_Y + index * TIME_SPACING
  else CHART_START_Y + CHART_HEIGHT - index * TIME_SPACING

/-- clamp_x of main.c. -/
def clamp_x (invert : Bool) (x : Int) : Int :=
  let left := chart_left invert
  if x < left then left
  else if left + CHART_WIDTH < x then left + CHART_WIDTH
  else x

/-- A drawn line segment (one graphics_draw_line call). -/
structure Seg where
  x1 : Int
  y1 : Int
  x2 : Int
  y2 : Int
  deriving Repr, DecidableEq

/-- The line segments drawn by draw_glucose_line of main.c: one segment
between samples i and i+1 for every i with 0 <= i < reading_count - 1.
The loop inspects only the value fields; it never reads a timestamp. -/
def draw_glucose_line (invert : Bool) (buf : Int → GlucoseReading)
    (reading_count : Nat) (min_bg bg_range : Int) : List Seg :=
  (List.range (reading_count - 1)).map (fun (i : Nat) =>
    { x1 := clamp_x invert (bg_to_x invert (buf (i : Int)).value min_bg bg_range)
      y1 := index_to_y invert (i : Int)
      x2 := clamp_x invert (bg_to_x invert (buf ((i : Int) + 1)).value min_bg bg_range)
      y2 := index_to_y invert ((i : Int) + 1) })

/-! Reading cache, from mergeCache in src/pkjs/index.js. -/

/-- A cache entry as stored in localStorage: v is the raw glucose value,
t the unix-second timestamp. -/
structure CacheEntry where
  v : Int
  t : Int
  deriving Repr, DecidableEq

/-- Retention window in seconds (CACHE_DURATION, 3 hours). -/
def CACHE_DURATION : Int := 10800

/-- One assignment into the byTimestamp object of mergeCache: overwrite
the entry stored at key r.t, or add r under a fresh key. -/
def putEntry (m : List CacheEntry) (r : CacheEntry) : List CacheEntry :=
  if m.any (fun e => decide (e.t = r.t)) then
    m.map (fun e => if e.t = r.t then r else e)
  else
    m ++ [r]

/-- The byTimestamp map of mergeCache after indexing all given entries
in order, as an association list keyed by timestamp. -/
def buildMap (entries : List CacheEntry) : List CacheEntry :=
  entries.foldl putEntry []

/-- mergeCache of src/pkjs/index.js: index existing entries, overlay the
incoming ones (overwrite on key collision), collect, sort descending by
timestamp, and drop entries older than now - CACHE_DURATION. -/
def mergeCache (cache newReadings : List CacheEntry) (now : Int) :
    List CacheEntry :=
  let merged := buildMap (cache ++ newReadings)
  let sorted := List.insertionSort (fun a b => b.t ≤ a.t) merged
  sorted.filter (fun e => decide (now - CACHE_DURATION ≤ e.t))

/-- Lookup in an association list keyed by timestamp. -/
def getT (m : List CacheEntry) (t : Int) : Option CacheEntry :=
  m.find? (fun e => decide (e.t = t))

/-- The timestamps of a list of entries. -/
def tkeys (m : List CacheEntry) : List Int := m.map (fun e => e.t)

instance : IsTotal CacheEntry (fun a b => b.t ≤ a.t) :=
  ⟨fun a b => le_total b.t a.t⟩

instance : IsTrans CacheEntry (fun a b => b.t ≤ a.t) :=
  ⟨fun _ _ _ h1 h2 => le_trans h2 h1⟩

instance : IsAntisymm CacheEntry (fun a b => b.t < a.t) :=
  ⟨fun _ _ h1 h2 => absurd (lt_trans h1 h2) (lt_irrefl _)⟩

/-! Session management, from src/pkjs/dexcom.js. -/

/-- The all-zero sentinel token the Dexcom service returns for invalid
credentials or a failed login. -/
def SENTINEL : String := "00000000-0000-0000-0000-000000000000"

/-- trimQuotes of dexcom.js: remove every double-quote character
(Char.ofNat 34) from the response text. -/
def trimQuotes (s : String) : String :=
  String.mk (s.data.filter (fun c => decide (c ≠ Char.ofNat 34)))

/-- The token fields of the Dexcom session object. -/
structure DexState where
  accountId : Option String
  sessionId : Option String
  deriving Repr, DecidableEq

/-- What a response handler did: invoked the success continuation, or
surfaced a failure through onError. -/
inductive AuthEvent where
  | proceed
  | errorRaised
  deriving Repr, DecidableEq

/-- The onload handler of _getAccountId: on HTTP 200 the quote-stripped
response text is assigned to this.accountId; only then is it compared
with the sentinel, and a sentinel raises onError without clearing the
field.  A non-200 status raises onError and leaves the state alone. -/
def getAccountIdOnload (s : DexState) (status : Nat) (responseText : String) :
    DexState × AuthEvent :=
  if status = 200 then
    let acc := trimQuotes responseText
    let s2 := { s with accountId := some acc }
    if acc = SENTINEL then (s2, .errorRaised) else (s2, .proceed)
  else (s, .errorRaised)

/-- The onload handler of _getSessionId, identical in shape to
getAccountIdOnload but writing this.sessionId. -/
def getSessionIdOnload (s : DexState) (status : Nat) (responseText : String) :
    DexState × AuthEvent :=
  if status = 200 then
    let sid := trimQuotes responseText
    let s2 := { s with sessionId := some sid }
    if sid = SENTINEL then (s2, .errorRaised) else (s2, .proceed)
  else (s, .errorRaised)

/-- The fresh session state built by the Dexcom constructor. -/
def initDex : DexState := { accountId := none, sessionId := none }

/-! Bounded re-authentication, from _handleServerError in dexcom.js. -/

/-- What _handleServerError does after updating retryCount: clear the
session id, re-authenticate and retry the fetch, or raise onError. -/
inductive ServerAction where
  | reauthRetry
  | raiseError
  deriving Repr, DecidableEq

/-- The session-invalidity codes recognised by _handleServerError. -/
def isSessionCode (code : String) : Prop :=
  code = "SessionIdNotFound" ∨ code = "SessionNotValid"

instance (code : String) : Decidable (isSessionCode code) := by
  unfold isSessionCode; infer_instance

/-- _handleServerError of dexcom.js: given the current retryCount and
the server error code, the updated retryCount and the action taken.  A
session-invalidity code with retryCount < 2 increments the counter and
re-authenticates; otherwise the counter is reset to 0 and onError is
raised. -/
def handleServerError (retryCount : Nat) (code : String) :
    Nat × ServerAction :=
  if isSessionCode code then
    if retryCount < 2 then (retryCount + 1, ServerAction.reauthRetry)
    else (0, ServerAction.raiseError)
  else (0, ServerAction.raiseError)

/-- The server-error events of one fetch cycle: starting from the given
retryCount, process error codes in order; the first raiseError action
surfaces onError and ends the cycle.  Returns the number of automatic
re-authentications performed, the final retryCount, and whether onError
was raised. -/
def runCycle (retryCount : Nat) : List String → Nat × Nat × Bool
  | [] => (0, retryCount, false)
  | code :: rest =>
    match handleServerError retryCount code with
    | (rc, ServerAction.reauthRetry) =>
        let r := runCycle rc rest
        (r.1 + 1, r.2.1, r.2.2)
    | (rc, ServerAction.raiseError) => (0, rc, true)

/-! Chunked sender, from sendChunks in src/pkjs/index.js. -/

def MAX_READINGS_PER_CHUNK : Nat := 316

/-- The fixed inter-attempt delay of a chunk retry (the setTimeout
argument in sendChunks), in milliseconds. -/
def CHUNK_RETRY_DELAY_MS : Nat := 500

/-- The retry bound tested by sendChunks (retries < 3). -/
def CHUNK_MAX_RETRIES : Nat := 3

/-- One observable event of a transfer: a transmission attempt of the
chunk at startIndex (with the current retry counter), the final success
log, or the abort after the retry budget is exhausted. -/
inductive SendEvent where
  | sent (startIndex : Nat) (bytes : List Int) (retries : Nat)
  | done
  | aborted (startIndex : Nat)
  deriving Repr, DecidableEq

/-- The byte payload of the chunk that starts at startIndex: the
values/timestamps slice of at most MAX_READINGS_PER_CHUNK readings,
encoded. -/
def chunkBytes (values timestamps : List Int) (startIndex : Nat) :
    List Int :=
  let chunkSize := min (values.length - startIndex) MAX_READINGS_PER_CHUNK
  encodeReadingsToBytes ((values.drop startIndex).take chunkSize)
    ((timestamps.drop startIndex).take chunkSize)

/-- Trace semantics of sendChunks: outcomes lists the delivery results
of the successive Pebble.sendAppMessage calls, in order.  Success moves
to the next chunk with retries reset to 0; failure with retries < 3
resends the same chunk after the fixed delay with retries + 1; a fourth
failure aborts the remaining transfer.  An exhausted outcome list leaves
the last attempt pending. -/
def sendChunks (values timestamps : List Int) (startIndex retries : Nat) :
    List Bool → List SendEvent
  | [] =>
    if values.length ≤ startIndex then [SendEvent.done]
    else [SendEvent.sent startIndex (chunkBytes values timestamps startIndex)
            retries]
  | ok :: rest =>
    if values.length ≤ startIndex then [SendEvent.done]
    else if ok then
      SendEvent.sent startIndex (chunkBytes values timestamps startIndex)
          retries
        :: sendChunks values timestamps
            (startIndex + min (values.length - startIndex) MAX_READINGS_PER_CHUNK)
            0 rest
    else if retries < CHUNK_MAX_RETRIES then
      SendEvent.sent startIndex (chunkBytes values timestamps startIndex)
          retries
        :: sendChunks values timestamps startIndex (retries + 1) rest
    else
      [SendEvent.sent startIndex (chunkBytes values timestamps startIndex)
          retries,
       SendEvent.aborted startIndex]

/-- Recognize a transmission attempt of the chunk at the given
startIndex. -/
def isSentAt (si : Nat) : SendEvent → Bool
  | SendEvent.sent si2 _ _ => decide (si2 = si)
  | _ => false

/-! Concrete fixtures used by counterexamples and witnesses. -/

/-- The receiver state right after a header message announcing 36
readings. -/
def afterHeader36 : ReceiverState := inbox_received initReceiver (.header 36)

/-- The 6-byte wire record of the reading value 1230 at unix time
1700000000: 1230 = 0x04CE little-endian, 1700000000 = 0x6553F100
little-endian. -/
def sampleRecordBytes : List Nat := [206, 4, 0, 241, 83, 101]

/-- A two-sample buffer whose consecutive samples are 100000 seconds
apart, far beyond any gap threshold. -/
def gapBuf : Int → GlucoseReading :=
  fun i => if i = 0 then ⟨1000, 0⟩ else if i = 1 then ⟨1200, 100000⟩ else ⟨0, 0⟩

/-! Helper lemmas about the receiver. -/

theorem checkComplete_readings (s : ReceiverState) :
    (checkComplete s).readings = s.readings := by
  unfold checkComplete; split <;> rfl

theorem checkComplete_received (s : ReceiverState) :
    (checkComplete s).received_count = s.received_count := by
  unfold checkComplete; split <;> rfl

theorem checkComplete_renders (s : ReceiverState) :
    (checkComplete s).renders =
      if s.expected_count ≤ s.received_count then s.renders + 1
      else s.renders := by
  unfold checkComplete; split <;> simp_all

theorem applyWrites_cons (q : Int × GlucoseReading)
    (ws : List (Int × GlucoseReading)) (buf : Int → GlucoseReading) :
    applyWrites (q :: ws) buf = applyWrites ws (writeSlot buf q.1 q.2) := rfl

theorem applyWrites_unwritten (ws : List (Int × GlucoseReading))
    (buf : Int → GlucoseReading) (i : Int) (h : ∀ p ∈ ws, p.1 ≠ i) :
    applyWrites ws buf i = buf i := by
  induction ws generalizing buf with
  | nil => rfl
  | cons q rest ih =>
      have hq : q.1 ≠ i := h q (List.mem_cons_self q rest)
      rw [applyWrites_cons, ih _ (fun p hp => h p (List.mem_cons_of_mem _ hp))]
      unfold writeSlot
      rw [if_neg (Ne.symm hq)]

theorem applyWrites_written (ws : List (Int × GlucoseReading))
    (buf buf2 : Int → GlucoseReading) (i : Int) (h : ∃ p ∈ ws, p.1 = i) :
    applyWrites ws buf i = applyWrites ws buf2 i := by
  induction ws generalizing buf buf2 with
  | nil => exact absurd h (by simp)
  | cons q rest ih =>
      by_cases hrest : ∃ p ∈ rest, p.1 = i
      · rw [applyWrites_cons, applyWrites_cons]
        exact ih _ _ hrest
      · have hq : q.1 = i := by
          rcases h with ⟨p, hp, hpi⟩
          rcases List.mem_cons.mp hp with rfl | hmem
          · exact hpi
          · exact absurd ⟨p, hmem, hpi⟩ hrest
        have hnone : ∀ p ∈ rest, p.1 ≠ i := fun p hp hpi => hrest ⟨p, hp, hpi⟩
        rw [applyWrites_cons, applyWrites_cons,
          applyWrites_unwritten _ _ _ hnone, applyWrites_unwritten _ _ _ hnone]
        unfold writeSlot
        rw [if_pos hq.symm, if_pos hq.symm]

theorem applyWrites_idem (ws : List (Int × GlucoseReading))
    (buf : Int → GlucoseReading) (i : Int) :
    applyWrites ws (applyWrites ws buf) i = applyWrites ws buf i := by
  by_cases h : ∃ p ∈ ws, p.1 = i
  · exact applyWrites_written ws _ _ i h
  · have h2 : ∀ p ∈ ws, p.1 ≠ i := fun p hp hpi => h ⟨p, hp, hpi⟩
    rw [applyWrites_unwritten _ _ _ h2, applyWrites_unwritten _ _ _ h2]

/-! Claim C1: chunk replay idempotence at the receiver. -/

/-- Claim C1, counterexample.  The claim states that delivering the same
chunk twice leaves receivedCount identical to delivering it once.  After
a header announcing 36 readings, delivering the one-record chunk at
startIndex 0 once gives receivedCount 1, delivering it twice gives
receivedCount 2: the counter is incremented on every write, so replay
double-counts. -/
theorem C1_counterexample :
    (inbox_received (inbox_received afterHeader36
        (.chunk sampleRecordBytes 0)) (.chunk sampleRecordBytes 0)).received_count = 2 ∧
    (inbox_received afterHeader36 (.chunk sampleRecordBytes 0)).received_count = 1 := by
  decide

/-- Claim C1, amended: delivering the same chunk twice leaves the buffer
slot contents identical to delivering it once, but adds the chunk's
record count to receivedCount a second time. -/
theorem C1_chunk_replay (s : ReceiverState) (data : List Nat)
    (startIndex : Int) :
    (∀ i : Int,
      (inbox_received (inbox_received s (.chunk data startIndex))
          (.chunk data startIndex)).readings i
        = (inbox_received s (.chunk data startIndex)).readings i) ∧
    (inbox_received (inbox_received s (.chunk data startIndex))
        (.chunk data startIndex)).received_count
      = (inbox_received s (.chunk data startIndex)).received_count
        + ((chunkWrites data startIndex).length : Int) := by
  constructor
  · intro i
    simp only [inbox_received, checkComplete_readings]
    exact applyWrites_idem _ _ i
  · simp only [inbox_received, checkComplete_received]

/-! Claim C2: completion trigger. -/

/-- Claim C2, counterexample.  The claim states the completion action
fires exactly once per header reset and never again until a new header.
After a header announcing 1 reading, an in-range single-record delivery
completes the buffer (one render); delivering the same record again
re-runs the completion block and renders a second time, with no new
header in between. -/
theorem C2_counterexample :
    (inbox_received (inbox_received (inbox_received initReceiver
        (.header 1)) (.single 0 100 5)) (.single 0 100 5)).renders = 2 ∧
    (inbox_received (inbox_received initReceiver
        (.header 1)) (.single 0 100 5)).renders = 1 := by
  decide

/-- Claim C2, amended: the completion action (setting readingCount,
clearing receivingData, rendering) runs on every chunk delivery whose
post-delivery receivedCount is at least expectedCount, and on every
in-range single-record delivery under the same condition — so it fires
when receivedCount first reaches expectedCount but fires again on each
later delivery while the condition holds; a header message never fires
it. -/
theorem C2_completion_recheck (s : ReceiverState) (data : List Nat)
    (si index value : Int) (ts : Nat) (count : Int) :
    (inbox_received s (.header count)).renders = s.renders ∧
    (inbox_received s (.chunk data si)).renders =
      (if s.expected_count ≤ s.received_count + ((chunkWrites data si).length : Int)
       then s.renders + 1 else s.renders) ∧
    (inbox_received s (.single index value ts)).renders =
      (if 0 ≤ index ∧ index < (MAX_READINGS : Int)
          ∧ s.expected_count ≤ s.received_count + 1
       then s.renders + 1 else s.renders) := by
  refine ⟨rfl, ?_, ?_⟩
  · simp only [inbox_received, checkComplete_renders]
  · by_cases h : 0 ≤ index ∧ index < (MAX_READINGS : Int)
    · by_cases h2 : s.expected_count ≤ s.received_count + 1
      · simp [inbox_received, checkComplete_renders, h, h2]
      · simp [inbox_received, checkComplete_renders, h, h2]
    · have : ¬ (0 ≤ index ∧ index < (MAX_READINGS : Int)
          ∧ s.expected_count ≤ s.received_count + 1) := by tauto
      simp [inbox_received, h, this]

/-! Claim C3: receiver slot-bounds safety. -/

/-- Claim C3.  The chunk loop checks only the upper bound
(idx >= MAX_READINGS breaks) and never the lower one, so a chunk with
startIndex -1 writes its decoded record into slot -1 — out of the
buffer's bounds — and still increments receivedCount.  The legacy
single-record path does check both bounds and rejects index -1. -/
theorem C3_negative_index_write :
    (inbox_received afterHeader36
        (.chunk sampleRecordBytes (-1))).readings (-1) = ⟨1230, 1700000000⟩ ∧
    (inbox_received afterHeader36
        (.chunk sampleRecordBytes (-1))).received_count = 1 ∧
    (inbox_received afterHeader36 (.single (-1) 100 5)).received_count = 0 := by
  decide

/-! Claim C4: gap suppression in the renderer. -/

/-- Claim C4, counterexample.  The claim states no segment is drawn
between consecutive samples whose timestamp delta exceeds the gap
threshold (two missed 5-minute sampling intervals, 900 seconds).  In the
buffer gapBuf the two consecutive samples are 100000 seconds apart, yet
draw_glucose_line still emits exactly one segment — the one connecting
them. -/
theorem C4_counterexample :
    900 < (gapBuf 1).timestamp - (gapBuf 0).timestamp ∧
    (draw_glucose_line false gapBuf 2 990 40).length = 1 := by
  decide

/-- Claim C4, amended: draw_glucose_line draws a segment between every
pair of consecutive samples — reading_count - 1 segments in all —
regardless of their timestamps: the drawn segments depend only on the
samples' value fields, so no gap suppression takes place. -/
theorem C4_no_gap_suppression (invert : Bool)
    (buf buf2 : Int → GlucoseReading) (count : Nat) (min_bg bg_range : Int)
    (h : ∀ i : Int, (buf i).value = (buf2 i).value) :
    draw_glucose_line invert buf count min_bg bg_range
        = draw_glucose_line invert buf2 count min_bg bg_range ∧
    (draw_glucose_line invert buf count min_bg bg_range).length = count - 1 := by
  constructor
  · simp only [draw_glucose_line, h]
  · simp [draw_glucose_line]

/-- Claim C4, witness for the amended theorem at the concrete gap
buffer. -/
theorem C4_no_gap_suppression_witness :
    draw_glucose_line false gapBuf 2 990 40
        = draw_glucose_line false gapBuf 2 990 40 ∧
    (draw_glucose_line false gapBuf 2 990 40).length = 2 - 1 :=
  C4_no_gap_suppression false gapBuf gapBuf 2 990 40 (fun _ => rfl)

/-! Claim C9: decode and malformed lengths. -/

/-- Claim C9, counterexample.  The claim states that a payload whose
length is not a multiple of 6 is rejected with no records decoded.  A
7-byte payload (7 mod 6 = 1) still decodes one record from its first 6
bytes: the loop count is the truncating division byte_len / 6 and no
length check exists. -/
theorem C9_counterexample :
    ([206, 4, 0, 241, 83, 101, 99] : List Nat).length % BYTES_PER_READING ≠ 0 ∧
    chunkWrites [206, 4, 0, 241, 83, 101, 99] 0 = [(0, ⟨1230, 1700000000⟩)] := by
  decide

theorem getD_take (data : List Nat) (k j : Nat) (h : j < k) :
    (data.take k).getD j 0 = data.getD j 0 := by
  simp [List.getD_eq_getElem?_getD, List.getElem?_take, h]

theorem decodeAt_take_eq (data : List Nat) (i : Nat)
    (h : i < data.length / BYTES_PER_READING) :
    decodeAt (data.take (BYTES_PER_READING * (data.length / BYTES_PER_READING)))
        (i * BYTES_PER_READING)
      = decodeAt data (i * BYTES_PER_READING) := by
  have h6 : BYTES_PER_READING = 6 := rfl
  rw [h6] at h ⊢
  unfold decodeAt
  rw [getD_take _ _ _ (by omega), getD_take _ _ _ (by omega),
      getD_take _ _ _ (by omega), getD_take _ _ _ (by omega),
      getD_take _ _ _ (by omega), getD_take _ _ _ (by omega)]

/-- Claim C9, amended: the chunk decode loop is not rejected on a length
that is not a multiple of 6; it decodes the first floor(length / 6)
complete records and silently ignores the trailing bytes — truncating
the payload to its complete records leaves the decoded output unchanged,
and at most floor(length / 6) records are produced. -/
theorem C9_trailing_bytes_ignored (data : List Nat) (si : Int) :
    chunkWrites
        (data.take (BYTES_PER_READING * (data.length / BYTES_PER_READING))) si
      = chunkWrites data si ∧
    (chunkWrites data si).length ≤ data.length / BYTES_PER_READING := by
  have h6 : BYTES_PER_READING = 6 := rfl
  have hK : (data.take (BYTES_PER_READING * (data.length / BYTES_PER_READING))).length
      = BYTES_PER_READING * (data.length / BYTES_PER_READING) := by
    rw [h6]; simp only [List.length_take]; omega
  constructor
  · unfold chunkWrites
    rw [hK]
    have hdiv : BYTES_PER_READING * (data.length / BYTES_PER_READING) / BYTES_PER_READING
        = data.length / BYTES_PER_READING := by rw [h6]; omega
    rw [hdiv]
    apply List.map_congr_left
    intro i hi
    have hmem : i ∈ List.range (data.length / BYTES_PER_READING) :=
      (List.takeWhile_sublist _).mem hi
    have hilt : i < data.length / BYTES_PER_READING := List.mem_range.mp hmem
    rw [decodeAt_take_eq data i hilt]
  · unfold chunkWrites
    rw [List.length_map]
    calc (List.takeWhile _ (List.range (data.length / BYTES_PER_READING))).length
        ≤ (List.range (data.length / BYTES_PER_READING)).length :=
          (List.takeWhile_sublist _).length_le
      _ = data.length / BYTES_PER_READING := List.length_range _

/-! Numeric lemmas for the wire codec. -/

theorem land_mask (n k : Nat) : Nat.land n (2 ^ k - 1) = n % 2 ^ k := by
  show n &&& (2 ^ k - 1) = n % 2 ^ k
  apply Nat.eq_of_testBit_eq
  intro i
  rw [Nat.testBit_and, Nat.testBit_mod_two_pow, Nat.testBit_two_pow_sub_one]
  cases h : n.testBit i <;> cases h2 : decide (i < k) <;> simp [h, h2]

theorem toInt32_eq (n : Int) :
    toInt32 n = (n % 4294967296 + 2147483648) % 4294967296 - 2147483648 := by
  simp only [toInt32]
  split <;> omega

theorem toInt16_eq (n : Nat) :
    toInt16 n = ((n : Int) % 65536 + 32768) % 65536 - 32768 := by
  simp only [toInt16]
  split <;> omega

theorem toInt32_small (n : Int) (h1 : 0 ≤ n) (h2 : n < 2147483648) :
    toInt32 n = n := by
  simp only [toInt32]
  split <;> omega

theorem toUint32_cast (n : Int) : ((toUint32 n : Nat) : Int) = n % 4294967296 := by
  unfold toUint32
  have h := Int.emod_nonneg n (by norm_num : (4294967296 : Int) ≠ 0)
  omega

theorem jsAnd_255 (a : Int) : jsAnd a 255 = a % 256 := by
  unfold jsAnd
  rw [show toUint32 255 = 2 ^ 8 - 1 by decide, land_mask,
    show (2 : Nat) ^ 8 = 256 by norm_num, toInt32_eq]
  have h := toUint32_cast a
  omega

theorem jsAnd_65535 (a : Int) : jsAnd a 65535 = a % 65536 := by
  unfold jsAnd
  rw [show toUint32 65535 = 2 ^ 16 - 1 by decide, land_mask,
    show (2 : Nat) ^ 16 = 65536 by norm_num, toInt32_eq]
  have h := toUint32_cast a
  omega

theorem jsShr_8 (a : Int) : jsShr a 8 = toInt32 a / 256 := by
  unfold jsShr; norm_num

theorem jsShr_16 (a : Int) : jsShr a 16 = toInt32 a / 65536 := by
  unfold jsShr; norm_num

theorem jsShr_24 (a : Int) : jsShr a 24 = toInt32 a / 16777216 := by
  unfold jsShr; norm_num

theorem encode_single (value t : Int) :
    encodeReadingsToBytes [value] [t]
      = [value % 65536 % 256, value % 65536 / 256 % 256,
         t % 256, toInt32 t / 256 % 256, toInt32 t / 65536 % 256,
         toInt32 t / 16777216 % 256] := by
  unfold encodeReadingsToBytes
  simp only [List.length_cons, List.length_nil, Nat.zero_add]
  rw [show List.range 1 = [0] by decide]
  simp only [List.map_cons, List.map_nil, List.flatten_cons, List.flatten_nil,
    List.append_nil, List.getD_cons_zero]
  rw [jsAnd_65535, jsShr_8, jsShr_8, jsShr_16, jsShr_24,
    jsAnd_255, jsAnd_255, jsAnd_255, jsAnd_255, jsAnd_255, jsAnd_255]
  have hsmall : toInt32 (value % 65536) = value % 65536 := by
    have h1 := Int.emod_nonneg value (by norm_num : (65536 : Int) ≠ 0)
    have h2 := Int.emod_lt_of_pos value (by norm_num : (0 : Int) < 65536)
    exact toInt32_small _ h1 (by omega)
  rw [hsmall]

/-! Claim C6: wire-codec round trip. -/

/-- Claim C6: for every value in the signed 16-bit range and every
timestamp in the unsigned 32-bit range, encoding the single reading as 6
bytes and decoding the resulting payload at startIndex 0 with the
receiver's chunk loop yields exactly the one record (slot 0, same value,
same timestamp). -/
theorem C6_codec_roundtrip (value t : Int)
    (hv1 : -32768 ≤ value) (hv2 : value ≤ 32767)
    (ht1 : 0 ≤ t) (ht2 : t < 4294967296) :
    chunkWrites ((encodeReadingsToBytes [value] [t]).map Int.toNat) 0
      = [(0, ⟨value, t.toNat⟩)] := by
  have hcw : ∀ data : List Nat, data.length = 6 →
      chunkWrites data 0 = [(0, decodeAt data 0)] := by
    intro data h
    unfold chunkWrites
    rw [h, show (6 : Nat) / BYTES_PER_READING = 1 by decide,
      show List.range 1 = [0] by decide,
      List.takeWhile_cons_of_pos (by decide)]
    simp only [List.takeWhile_nil, List.map_cons, List.map_nil]
    norm_num
  have hdec : ∀ d0 d1 d2 d3 d4 d5 : Nat,
      decodeAt [d0, d1, d2, d3, d4, d5] 0
        = ⟨toInt16 (d0 + 256 * d1),
           d2 + 256 * d3 + 65536 * d4 + 16777216 * d5⟩ := fun _ _ _ _ _ _ => rfl
  rw [encode_single]
  simp only [List.map_cons, List.map_nil]
  rw [hcw _ (by simp), hdec]
  have hvalue : toInt16 ((value % 65536 % 256).toNat
      + 256 * (value % 65536 / 256 % 256).toNat) = value := by
    rw [toInt16_eq]
    omega
  have h32 : toInt32 t = t ∨ toInt32 t = t - 4294967296 := by
    rw [toInt32_eq]
    omega
  have hts : (t % 256).toNat + 256 * (toInt32 t / 256 % 256).toNat
      + 65536 * (toInt32 t / 65536 % 256).toNat
      + 16777216 * (toInt32 t / 16777216 % 256).toNat = t.toNat := by
    rcases h32 with h32 | h32 <;> rw [h32] <;> omega
  rw [hvalue, hts]

/-- Claim C6, witness: the round trip evaluated at value -1230 and
timestamp 4000000000 (above 2^31, exercising the sign-sensitive shift
path). -/
theorem C6_codec_roundtrip_witness :
    ((-32768 : Int) ≤ -1230 ∧ (-1230 : Int) ≤ 32767
      ∧ (0 : Int) ≤ 4000000000 ∧ (4000000000 : Int) < 4294967296) ∧
    chunkWrites ((encodeReadingsToBytes [-1230] [4000000000]).map Int.toNat) 0
      = [(0, ⟨-1230, (4000000000 : Int).toNat⟩)] :=
  ⟨by decide,
   C6_codec_roundtrip (-1230) 4000000000 (by decide) (by decide) (by decide)
     (by decide)⟩

/-! Claim C7: bounded re-authentication on session-invalid. -/

theorem runCycle_reauth_bound (codes : List String) (rc : Nat) :
    (runCycle rc codes).1 + min rc 2 ≤ 2 := by
  induction codes generalizing rc with
  | nil => simp [runCycle]
  | cons code rest ih =>
      unfold runCycle handleServerError
      by_cases hs : isSessionCode code
      · by_cases hlt : rc < 2
        · simp only [if_pos hs, if_pos hlt]
          have h := ih (rc + 1)
          omega
        · simp only [if_pos hs, if_neg hlt]
          omega
      · simp only [if_neg hs]
        omega

/-- Claim C7: within one fetch cycle (the error events up to the first
surfaced onError), a session-invalid error code triggers at most 2
automatic re-authentication-and-retry attempts; the 3rd consecutive
occurrence performs no retry, resets the retry counter to 0 and raises
onError; and any other error code resets the counter and raises onError
with no retry. -/
theorem C7_reauth_bound (codes : List String) (c1 c2 c3 : String)
    (rc : Nat) (code : String) :
    (runCycle 0 codes).1 ≤ 2 ∧
    (isSessionCode c1 → isSessionCode c2 → isSessionCode c3 →
      runCycle 0 [c1, c2, c3] = (2, 0, true)) ∧
    (¬ isSessionCode code →
      handleServerError rc code = (0, ServerAction.raiseError)) := by
  refine ⟨?_, ?_, ?_⟩
  · have h := runCycle_reauth_bound codes 0
    omega
  · intro h1 h2 h3
    simp [runCycle, handleServerError, h1, h2, h3]
  · intro h
    simp [handleServerError, h]

/-- Claim C7, witness: a cycle hitting three session-invalid responses in
a row performs exactly 2 re-authentications, ends with retryCount 0 and a
surfaced error, and a non-session error code raises onError with no
retry. -/
theorem C7_reauth_bound_witness :
    runCycle 0 ["SessionIdNotFound", "SessionNotValid", "SessionIdNotFound"]
        = (2, 0, true) ∧
    handleServerError 0 "AccountPasswordInvalid"
        = (0, ServerAction.raiseError) :=
  ⟨(C7_reauth_bound [] "SessionIdNotFound" "SessionNotValid"
      "SessionIdNotFound" 0 "AccountPasswordInvalid").2.1
        (by decide) (by decide) (by decide),
   (C7_reauth_bound [] "SessionIdNotFound" "SessionNotValid"
      "SessionIdNotFound" 0 "AccountPasswordInvalid").2.2 (by decide)⟩

/-! Claim C10: the sentinel token and the session fields. -/

/-- Claim C10, counterexample.  The claim states the accountId field
never holds the sentinel.  Starting from the constructor state, one
HTTP-200 response carrying the sentinel is a reachable state in which
this.accountId holds the sentinel: the handler assigns the response to
the field before comparing it with the sentinel and does not clear it. -/
theorem C10_counterexample :
    (getAccountIdOnload initDex 200 SENTINEL).1.accountId = some SENTINEL ∧
    (getAccountIdOnload initDex 200 SENTINEL).2 = AuthEvent.errorRaised := by
  constructor
  · simp [getAccountIdOnload, trimQuotes, SENTINEL]
  · simp [getAccountIdOnload, trimQuotes, SENTINEL]

/-- Claim C10, amended: a sentinel returned at either authentication
step is surfaced as a failure (onError is raised and the success
continuation is not invoked), but the sentinel is written to the
corresponding token field before the check and is retained there; a
non-sentinel 200 response stores the token and proceeds. -/
theorem C10_sentinel_surfaced (s : DexState) (text : String) :
    (trimQuotes text = SENTINEL →
      (getAccountIdOnload s 200 text).2 = AuthEvent.errorRaised ∧
      (getAccountIdOnload s 200 text).1.accountId = some SENTINEL ∧
      (getSessionIdOnload s 200 text).2 = AuthEvent.errorRaised ∧
      (getSessionIdOnload s 200 text).1.sessionId = some SENTINEL) ∧
    (trimQuotes text ≠ SENTINEL →
      (getAccountIdOnload s 200 text).2 = AuthEvent.proceed ∧
      (getAccountIdOnload s 200 text).1.accountId = some (trimQuotes text) ∧
      (getSessionIdOnload s 200 text).2 = AuthEvent.proceed ∧
      (getSessionIdOnload s 200 text).1.sessionId = some (trimQuotes text)) := by
  constructor
  · intro h
    simp [getAccountIdOnload, getSessionIdOnload, h]
  · intro h
    simp [getAccountIdOnload, getSessionIdOnload, h]

/-- Claim C10, witness for the amended theorem: the sentinel response at
both steps from the constructor state. -/
theorem C10_sentinel_surfaced_witness :
    (getAccountIdOnload initDex 200 SENTINEL).2 = AuthEvent.errorRaised ∧
    (getAccountIdOnload initDex 200 SENTINEL).1.accountId = some SENTINEL ∧
    (getSessionIdOnload initDex 200 SENTINEL).2 = AuthEvent.errorRaised ∧
    (getSessionIdOnload initDex 200 SENTINEL).1.sessionId = some SENTINEL :=
  (C10_sentinel_surfaced initDex SENTINEL).1 (by decide)

/-! Claim C8: bounded chunk retry at the sender. -/

theorem sendChunks_sent_ge (values timestamps : List Int)
    (outcomes : List Bool) (si0 r0 si : Nat) (b : List Int) (r : Nat)
    (h : SendEvent.sent si b r ∈ sendChunks values timestamps si0 r0 outcomes) :
    si0 ≤ si := by
  induction outcomes generalizing si0 r0 with
  | nil =>
      unfold sendChunks at h
      split at h
      · simp at h
      · simp at h
        omega
  | cons ok rest ih =>
      unfold sendChunks at h
      split at h
      · simp at h
      · split at h
        · rcases List.mem_cons.mp h with heq | hmem
          · simp only [SendEvent.sent.injEq] at heq
            omega
          · have := ih _ _ hmem
            omega
        · split at h
          · rcases List.mem_cons.mp h with heq | hmem
            · simp only [SendEvent.sent.injEq] at heq
              omega
            · exact ih _ _ hmem
          · simp at h
            omega

theorem sendChunks_aborted_ge (values timestamps : List Int)
    (outcomes : List Bool) (si0 r0 si : Nat)
    (h : SendEvent.aborted si ∈ sendChunks values timestamps si0 r0 outcomes) :
    si0 ≤ si := by
  induction outcomes generalizing si0 r0 with
  | nil =>
      unfold sendChunks at h
      split at h <;> simp at h
  | cons ok rest ih =>
      unfold sendChunks at h
      split at h
      · simp at h
      · split at h
        · rcases List.mem_cons.mp h with heq | hmem
          · exact absurd heq (by simp)
          · have := ih _ _ hmem
            omega
        · split at h
          · rcases List.mem_cons.mp h with heq | hmem
            · exact absurd heq (by simp)
            · exact ih _ _ hmem
          · simp at h
            omega

theorem sendChunks_sent_shape (values timestamps : List Int)
    (outcomes : List Bool) (si0 r0 : Nat) (hr : r0 ≤ CHUNK_MAX_RETRIES)
    (si : Nat) (b : List Int) (r : Nat)
    (h : SendEvent.sent si b r ∈ sendChunks values timestamps si0 r0 outcomes) :
    b = chunkBytes values timestamps si ∧ r ≤ CHUNK_MAX_RETRIES := by
  induction outcomes generalizing si0 r0 with
  | nil =>
      unfold sendChunks at h
      split at h
      · simp at h
      · simp only [List.mem_singleton, SendEvent.sent.injEq] at h
        rcases h with ⟨rfl, rfl, rfl⟩
        exact ⟨rfl, hr⟩
  | cons ok rest ih =>
      unfold sendChunks at h
      split at h
      · simp at h
      · split at h
        · rcases List.mem_cons.mp h with heq | hmem
          · simp only [SendEvent.sent.injEq] at heq
            rcases heq with ⟨rfl, rfl, rfl⟩
            exact ⟨rfl, hr⟩
          · exact ih _ _ (by decide) hmem
        · rename_i hok
          split at h
          · rename_i hretry
            rcases List.mem_cons.mp h with heq | hmem
            · simp only [SendEvent.sent.injEq] at heq
              rcases heq with ⟨rfl, rfl, rfl⟩
              exact ⟨rfl, hr⟩
            · exact ih _ _ (by omega) hmem
          · simp only [List.mem_cons, List.mem_singleton] at h
            rcases h with heq | heq
            · simp only [SendEvent.sent.injEq] at heq
              rcases heq with ⟨rfl, rfl, rfl⟩
              exact ⟨rfl, hr⟩
            · exact absurd heq (by simp)

theorem sendChunks_attempts_le (values timestamps : List Int)
    (outcomes : List Bool) (si0 r0 si : Nat) (hr : r0 ≤ CHUNK_MAX_RETRIES) :
    (sendChunks values timestamps si0 r0 outcomes).countP (isSentAt si)
      ≤ (1 + CHUNK_MAX_RETRIES) - (if si = si0 then r0 else 0) := by
  have hC : CHUNK_MAX_RETRIES = 3 := rfl
  induction outcomes generalizing si0 r0 with
  | nil =>
      unfold sendChunks
      split
      · simp [isSentAt]
      · by_cases hsi : si = si0
        · simp [List.countP_cons, isSentAt, hsi]
          omega
        · simp [List.countP_cons, isSentAt, hsi, Ne.symm hsi]
  | cons ok rest ih =>
      unfold sendChunks
      split
      · simp [isSentAt]
      · rename_i hlen
        split
        · rw [List.countP_cons]
          by_cases hsi : si = si0
          · have hzero :
                (sendChunks values timestamps
                  (si0 + min (values.length - si0) MAX_READINGS_PER_CHUNK) 0
                  rest).countP (isSentAt si) = 0 := by
              rw [List.countP_eq_zero]
              intro e he
              match e, he with
              | SendEvent.sent si2 b2 r2, he =>
                  have hge := sendChunks_sent_ge _ _ _ _ _ _ _ _ he
                  have hM : MAX_READINGS_PER_CHUNK = 316 := rfl
                  simp only [isSentAt, decide_eq_true_eq]
                  omega
              | SendEvent.done, he => simp [isSentAt]
              | SendEvent.aborted _, he => simp [isSentAt]
            rw [hzero]
            simp [isSentAt, hsi]
            omega
          · have h := ih (si0 + min (values.length - si0) MAX_READINGS_PER_CHUNK) 0
              (by omega)
            have hM : MAX_READINGS_PER_CHUNK = 316 := rfl
            have hne : si ≠ si0 + min (values.length - si0) MAX_READINGS_PER_CHUNK
                ∨ si = si0 + min (values.length - si0) MAX_READINGS_PER_CHUNK := by
              tauto
            simp only [isSentAt, decide_eq_true_eq, if_neg hsi] at h ⊢
            rcases hne with hne | hne
            · simp only [if_neg hne] at h
              simp [Ne.symm hsi]
              omega
            · simp only [if_pos hne] at h
              simp [Ne.symm hsi]
              omega
        · rename_i hok
          split
          · rename_i hretry
            rw [List.countP_cons]
            have h := ih si0 (r0 + 1) (by omega)
            by_cases hsi : si = si0
            · subst hsi
              simp [isSentAt] at h ⊢
              omega
            · simp only [if_neg hsi] at h ⊢
              simp [isSentAt, Ne.symm hsi]
              omega
          · rename_i hretry
            by_cases hsi : si = si0
            · simp [List.countP_cons, isSentAt, hsi]
              omega
            · simp [List.countP_cons, isSentAt, hsi, Ne.symm hsi]

theorem sendChunks_abort_stops (values timestamps : List Int)
    (outcomes : List Bool) (si0 r0 si : Nat)
    (h : SendEvent.aborted si ∈ sendChunks values timestamps si0 r0 outcomes)
    (si2 : Nat) (b : List Int) (r : Nat)
    (h2 : SendEvent.sent si2 b r ∈ sendChunks values timestamps si0 r0 outcomes) :
    si2 ≤ si := by
  induction outcomes generalizing si0 r0 with
  | nil =>
      unfold sendChunks at h
      split at h <;> simp at h
  | cons ok rest ih =>
      unfold sendChunks at h h2
      split at h
      · simp at h
      · rename_i hlen
        split at h
        · rename_i hok
          have hmem : SendEvent.aborted si ∈ sendChunks values timestamps
              (si0 + min (values.length - si0) MAX_READINGS_PER_CHUNK) 0 rest := by
            rcases List.mem_cons.mp h with heq | hm
            · exact absurd heq (by simp)
            · exact hm
          simp only [if_neg hlen, if_pos hok] at h2
          rcases List.mem_cons.mp h2 with heq | hm2
          · simp only [SendEvent.sent.injEq] at heq
            have hge := sendChunks_aborted_ge _ _ _ _ _ _ hmem
            omega
          · exact ih _ _ hmem hm2
        · rename_i hok
          split at h
          · rename_i hretry
            have hmem : SendEvent.aborted si ∈
                sendChunks values timestamps si0 (r0 + 1) rest := by
              rcases List.mem_cons.mp h with heq | hm
              · exact absurd heq (by simp)
              · exact hm
            simp only [if_neg hlen, if_neg hok, if_pos hretry] at h2
            rcases List.mem_cons.mp h2 with heq | hm2
            · simp only [SendEvent.sent.injEq] at heq
              have hge := sendChunks_aborted_ge _ _ _ _ _ _ hmem
              omega
            · exact ih _ _ hmem hm2
          · rename_i hretry
            have hsi : si = si0 := by
              simp at h
              exact h
            simp only [if_neg hlen, if_neg hok, if_neg hretry] at h2
            have hsi2 : si2 = si0 := by
              simp at h2
              tauto
            omega

/-- Claim C8: in any transfer trace started at the first chunk, every
transmission attempt of a chunk resends exactly the bytes determined by
its startIndex (same startIndex, same bytes on retry); any single chunk
is attempted at most 1 + 3 times (the retry counter never exceeds 3, with
the fixed 500 ms inter-attempt delay); and once an abort happens no chunk
beyond the aborted startIndex is ever attempted. -/
theorem C8_bounded_chunk_retry (values timestamps : List Int)
    (outcomes : List Bool) :
    (∀ si b r,
      SendEvent.sent si b r ∈ sendChunks values timestamps 0 0 outcomes →
        b = chunkBytes values timestamps si ∧ r ≤ CHUNK_MAX_RETRIES) ∧
    (∀ si, (sendChunks values timestamps 0 0 outcomes).countP (isSentAt si)
        ≤ 1 + CHUNK_MAX_RETRIES) ∧
    (∀ si, SendEvent.aborted si ∈ sendChunks values timestamps 0 0 outcomes →
      ∀ si2 b r,
        SendEvent.sent si2 b r ∈ sendChunks values timestamps 0 0 outcomes →
          si2 ≤ si) := by
  refine ⟨?_, ?_, ?_⟩
  · intro si b r h
    exact sendChunks_sent_shape values timestamps outcomes 0 0 (by decide) si b r h
  · intro si
    have h := sendChunks_attempts_le values timestamps outcomes 0 0 si (by decide)
    simp only [ite_self] at h
    omega
  · intro si h si2 b r h2
    exact sendChunks_abort_stops values timestamps outcomes 0 0 si h si2 b r h2

/-- Claim C8, witness: in the trace of a transfer of two readings whose
four delivery attempts all fail, the fourth attempt of chunk 0 (retry
counter 3) carries the same bytes as the first, and the retry counter
never exceeds the bound. -/
theorem C8_bounded_chunk_retry_witness :
    chunkBytes [10, 20] [100, 200] 0 = chunkBytes [10, 20] [100, 200] 0
      ∧ 3 ≤ CHUNK_MAX_RETRIES :=
  (C8_bounded_chunk_retry [10, 20] [100, 200]
      [false, false, false, false]).1 0 (chunkBytes [10, 20] [100, 200] 0) 3
    (by decide)

/-! Claim C5: the merge contract of the reading cache.  The byTimestamp
object of mergeCache is modelled as an association list with
last-write-wins assignment (putEntry); since its keys end up distinct
and the result is totally re-ordered by the descending sort, the
collection order of the object's values does not affect the result. -/

theorem tkeys_putEntry_nodup (m : List CacheEntry) (r : CacheEntry)
    (h : (tkeys m).Nodup) : (tkeys (putEntry m r)).Nodup := by
  unfold putEntry
  split
  · have heq : tkeys (m.map (fun e => if e.t = r.t then r else e)) = tkeys m := by
      unfold tkeys
      rw [List.map_map]
      apply List.map_congr_left
      intro e _
      by_cases het : e.t = r.t
      · simp [het]
      · simp [het]
    rw [heq]
    exact h
  · rename_i hany
    have hnot : ∀ e ∈ m, ¬ (e.t = r.t) := by
      simpa using hany
    unfold tkeys at h ⊢
    rw [List.map_append]
    simp only [List.map_cons, List.map_nil]
    rw [List.nodup_append]
    refine ⟨h, List.nodup_singleton _, ?_⟩
    intro a ha hb
    simp only [List.mem_singleton] at hb
    rcases List.mem_map.mp ha with ⟨e, he, hea⟩
    exact hnot e he (by rw [hea, hb])

theorem foldl_putEntry_tkeys_nodup (l : List CacheEntry) :
    ∀ acc, (tkeys acc).Nodup → (tkeys (l.foldl putEntry acc)).Nodup := by
  induction l with
  | nil => intro acc h; exact h
  | cons r l ih =>
      intro acc h
      exact ih _ (tkeys_putEntry_nodup _ _ h)

theorem buildMap_tkeys_nodup (l : List CacheEntry) :
    (tkeys (buildMap l)).Nodup :=
  foldl_putEntry_tkeys_nodup l [] (by simp [tkeys])

theorem putEntry_mem (m : List CacheEntry) (r x : CacheEntry)
    (h : x ∈ putEntry m r) : x ∈ m ∨ x = r := by
  unfold putEntry at h
  split at h
  · rcases List.mem_map.mp h with ⟨e, he, hfe⟩
    by_cases het : e.t = r.t
    · right
      rw [← hfe, if_pos het]
    · left
      rw [← hfe, if_neg het]
      exact he
  · rcases List.mem_append.mp h with hm | hr
    · exact Or.inl hm
    · right
      simpa using hr

theorem foldl_putEntry_mem (l : List CacheEntry) :
    ∀ acc x, x ∈ l.foldl putEntry acc → x ∈ acc ∨ x ∈ l := by
  induction l with
  | nil =>
      intro acc x h
      exact Or.inl h
  | cons r l ih =>
      intro acc x h
      rcases ih _ x h with hacc | hl
      · rcases putEntry_mem _ _ _ hacc with hm | hr
        · exact Or.inl hm
        · right
          rw [hr]
          exact List.mem_cons_self _ _
      · right
        exact List.mem_cons_of_mem _ hl

theorem buildMap_mem (l : List CacheEntry) (x : CacheEntry)
    (h : x ∈ buildMap l) : x ∈ l := by
  rcases foldl_putEntry_mem l [] x h with habs | hl
  · simp at habs
  · exact hl

theorem find?_map_replace_hit (m : List CacheEntry) (r : CacheEntry)
    (hany : ∃ e ∈ m, e.t = r.t) :
    (m.map (fun e => if e.t = r.t then r else e)).find?
        (fun e => decide (e.t = r.t)) = some r := by
  induction m with
  | nil => simp at hany
  | cons a m ih =>
      simp only [List.map_cons]
      by_cases hat : a.t = r.t
      · rw [if_pos hat, List.find?_cons_of_pos _ (by simp)]
      · rw [if_neg hat, List.find?_cons_of_neg _ (by simp [hat])]
        apply ih
        rcases hany with ⟨e, he, het⟩
        rcases List.mem_cons.mp he with rfl | hm
        · exact absurd het hat
        · exact ⟨e, hm, het⟩

theorem find?_map_replace_miss (m : List CacheEntry) (r : CacheEntry)
    (t : Int) (hne : r.t ≠ t) :
    (m.map (fun e => if e.t = r.t then r else e)).find?
        (fun e => decide (e.t = t))
      = m.find? (fun e => decide (e.t = t)) := by
  induction m with
  | nil => rfl
  | cons a m ih =>
      simp only [List.map_cons]
      by_cases hat : a.t = r.t
      · rw [if_pos hat,
          List.find?_cons_of_neg _ (by simp [hne]),
          List.find?_cons_of_neg _ (by simp [hat, hne])]
        exact ih
      · rw [if_neg hat]
        by_cases hq : a.t = t
        · rw [List.find?_cons_of_pos _ (by simp [hq]),
            List.find?_cons_of_pos _ (by simp [hq])]
        · rw [List.find?_cons_of_neg _ (by simp [hq]),
            List.find?_cons_of_neg _ (by simp [hq])]
          exact ih

theorem getT_putEntry (m : List CacheEntry) (r : CacheEntry) (t : Int) :
    getT (putEntry m r) t = if r.t = t then some r else getT m t := by
  unfold putEntry getT
  split
  · rename_i hany
    have hex : ∃ e ∈ m, e.t = r.t := by
      simpa using hany
    by_cases hrt : r.t = t
    · subst hrt
      rw [if_pos rfl]
      exact find?_map_replace_hit m r hex
    · rw [if_neg hrt]
      exact find?_map_replace_miss m r t hrt
  · rename_i hany
    have hnone : ∀ e ∈ m, ¬ (e.t = r.t) := by
      simpa using hany
    rw [List.find?_append]
    by_cases hrt : r.t = t
    · rw [if_pos hrt]
      have h1 : m.find? (fun e => decide (e.t = t)) = none := by
        rw [List.find?_eq_none]
        intro e he
        simp only [decide_eq_true_eq]
        rw [← hrt]
        exact hnone e he
      rw [h1]
      simp [hrt]
    · rw [if_neg hrt]
      have h2 : ([r] : List CacheEntry).find? (fun e => decide (e.t = t))
          = none := by
        simp [hrt]
      rw [h2, Option.or_none]

theorem getT_foldl (l : List CacheEntry) :
    ∀ acc t, getT (l.foldl putEntry acc) t
      = (l.reverse.find? (fun e => decide (e.t = t))).or (getT acc t) := by
  induction l with
  | nil =>
      intro acc t
      simp
  | cons r l ih =>
      intro acc t
      simp only [List.foldl_cons, List.reverse_cons]
      rw [ih (putEntry acc r) t, getT_putEntry, List.find?_append]
      cases hfind : l.reverse.find? (fun e => decide (e.t = t)) with
      | some x => simp
      | none =>
          simp only [Option.none_or]
          by_cases hrt : r.t = t
          · simp [hrt]
          · simp [hrt]

theorem getT_buildMap (l : List CacheEntry) (t : Int) :
    getT (buildMap l) t = l.reverse.find? (fun e => decide (e.t = t)) := by
  unfold buildMap
  rw [getT_foldl]
  simp [getT]

theorem findT_eq_of_mem (m : List CacheEntry) (e : CacheEntry)
    (h : (tkeys m).Nodup) (he : e ∈ m) :
    m.find? (fun x => decide (x.t = e.t)) = some e := by
  induction m with
  | nil => simp at he
  | cons a m ih =>
      rcases List.mem_cons.mp he with rfl | hm
      · rw [List.find?_cons_of_pos _ (by simp)]
      · have h2 : (tkeys m).Nodup ∧ a.t ∉ tkeys m := by
          unfold tkeys at h ⊢
          simp only [List.map_cons, List.nodup_cons] at h
          exact ⟨h.2, h.1⟩
        have hat : ¬ (a.t = e.t) := by
          intro hx
          apply h2.2
          rw [hx]
          unfold tkeys
          exact List.mem_map.mpr ⟨e, hm, rfl⟩
        rw [List.find?_cons_of_neg _ (by simp [hat])]
        exact ih h2.1 hm

theorem getT_eq_someE (m : List CacheEntry) (t : Int) (e : CacheEntry)
    (h : getT m t = some e) : e ∈ m ∧ e.t = t := by
  unfold getT at h
  refine ⟨List.mem_of_find?_eq_some h, ?_⟩
  have := List.find?_some h
  simpa using this

theorem mem_mergeCache (c n : List CacheEntry) (now : Int) (e : CacheEntry) :
    e ∈ mergeCache c n now
      ↔ e ∈ buildMap (c ++ n) ∧ now - CACHE_DURATION ≤ e.t := by
  unfold mergeCache
  simp only [List.mem_filter, List.mem_insertionSort, decide_eq_true_eq]

theorem mergeCache_sorted_nodup (c n : List CacheEntry) (now : Int) :
    List.Pairwise (fun a b => b.t < a.t) (mergeCache c n now) := by
  unfold mergeCache
  apply List.Pairwise.sublist (List.filter_sublist _)
  have hsorted : List.Sorted (fun a b : CacheEntry => b.t ≤ a.t)
      (List.insertionSort (fun a b => b.t ≤ a.t) (buildMap (c ++ n))) :=
    List.sorted_insertionSort _ _
  have hperm := List.perm_insertionSort (fun a b : CacheEntry => b.t ≤ a.t)
    (buildMap (c ++ n))
  have hnodup : (tkeys (List.insertionSort (fun a b => b.t ≤ a.t)
      (buildMap (c ++ n)))).Nodup := by
    unfold tkeys
    exact ((hperm.map _).nodup_iff).mpr (buildMap_tkeys_nodup _)
  have hpair : List.Pairwise (fun a b : CacheEntry => a.t ≠ b.t)
      (List.insertionSort (fun a b => b.t ≤ a.t) (buildMap (c ++ n))) := by
    unfold tkeys at hnodup
    exact List.pairwise_map.mp hnodup
  exact (hsorted.and hpair).imp
    (fun h => lt_of_le_of_ne h.1 (fun he => h.2 he.symm))

theorem mergeCache_tkeys_nodup (c n : List CacheEntry) (now : Int) :
    (tkeys (mergeCache c n now)).Nodup := by
  unfold mergeCache tkeys
  apply List.Nodup.sublist (List.Sublist.map _ (List.filter_sublist _))
  exact ((List.perm_insertionSort _ _).map _).nodup_iff.mpr
    (buildMap_tkeys_nodup _)

theorem mergeCache_incoming_wins (c n : List CacheEntry) (now : Int)
    (hn : (tkeys n).Nodup) (e : CacheEntry) (he : e ∈ n)
    (e2 : CacheEntry) (he2 : e2 ∈ mergeCache c n now) (ht : e2.t = e.t) :
    e2 = e := by
  have hmem : e2 ∈ buildMap (c ++ n) :=
    ((mem_mergeCache c n now e2).mp he2).1
  have hL : getT (buildMap (c ++ n)) e2.t = some e2 := by
    unfold getT
    exact findT_eq_of_mem _ _ (buildMap_tkeys_nodup _) hmem
  rw [getT_buildMap, List.reverse_append, List.find?_append] at hL
  have hrevnodup : (tkeys n.reverse).Nodup := by
    unfold tkeys at hn ⊢
    rw [List.map_reverse]
    exact List.nodup_reverse.mpr hn
  have hfind : n.reverse.find? (fun x => decide (x.t = e2.t)) = some e := by
    rw [ht]
    exact findT_eq_of_mem _ _ hrevnodup (List.mem_reverse.mpr he)
  rw [hfind] at hL
  simpa using hL.symm

theorem foldl_putEntry_of_nodup (m : List CacheEntry) :
    ∀ acc, (tkeys (acc ++ m)).Nodup → m.foldl putEntry acc = acc ++ m := by
  induction m with
  | nil =>
      intro acc _
      simp
  | cons r m ih =>
      intro acc hacc
      simp only [List.foldl_cons]
      have hrt : ¬ (acc.any (fun e => decide (e.t = r.t)) = true) := by
        simp only [List.any_eq_true, decide_eq_true_eq, not_exists]
        intro e he
        unfold tkeys at hacc
        rw [List.map_append, List.nodup_append] at hacc
        exact hacc.2.2 (List.mem_map.mpr ⟨e, he.1, rfl⟩)
          (by rw [he.2]; simp)
      have hput : putEntry acc r = acc ++ [r] := by
        unfold putEntry
        rw [if_neg hrt]
      rw [hput]
      have hstep := ih (acc ++ [r])
        (by rw [List.append_assoc]; simpa using hacc)
      rw [hstep, List.append_assoc]
      simp

theorem buildMap_eq_self (m : List CacheEntry) (h : (tkeys m).Nodup) :
    buildMap m = m := by
  have := foldl_putEntry_of_nodup m [] (by simpa using h)
  simpa using this

theorem getT_agree (c n : List CacheEntry) (now t : Int)
    (hret : now - CACHE_DURATION ≤ t) :
    getT (buildMap (mergeCache c n now ++ n)) t
      = getT (buildMap (c ++ n)) t := by
  rw [getT_buildMap, getT_buildMap, List.reverse_append, List.reverse_append,
    List.find?_append, List.find?_append]
  cases hfn : n.reverse.find? (fun e => decide (e.t = t)) with
  | some x => simp
  | none =>
      simp only [Option.none_or]
      cases hfc : c.reverse.find? (fun e => decide (e.t = t)) with
      | some x =>
          have hx : x ∈ buildMap (c ++ n) ∧ x.t = t := by
            apply getT_eq_someE _ t
            rw [getT_buildMap, List.reverse_append, List.find?_append, hfn,
              hfc]
            rfl
          have hxM : x ∈ mergeCache c n now :=
            (mem_mergeCache c n now x).mpr ⟨hx.1, by rw [hx.2]; exact hret⟩
          have hrevnodup : (tkeys (mergeCache c n now).reverse).Nodup := by
            unfold tkeys
            rw [List.map_reverse]
            have hmn := mergeCache_tkeys_nodup c n now
            unfold tkeys at hmn
            exact List.nodup_reverse.mpr hmn
          have := findT_eq_of_mem _ _ hrevnodup (List.mem_reverse.mpr hxM)
          rw [hx.2] at this
          rw [this]
      | none =>
          rw [List.find?_eq_none]
          intro x hxrev
          simp only [decide_eq_true_eq]
          intro hxt
          have hxM : x ∈ mergeCache c n now := List.mem_reverse.mp hxrev
          have hxL : x ∈ buildMap (c ++ n) :=
            ((mem_mergeCache c n now x).mp hxM).1
          have hsome : getT (buildMap (c ++ n)) x.t = some x := by
            unfold getT
            exact findT_eq_of_mem _ _ (buildMap_tkeys_nodup _) hxL
          rw [getT_buildMap, List.reverse_append, List.find?_append, hxt, hfn,
            hfc] at hsome
          simp at hsome

theorem mergeCache_idem (c n : List CacheEntry) (now : Int) :
    mergeCache (mergeCache c n now) n now = mergeCache c n now := by
  have hs1 : List.Pairwise (fun a b : CacheEntry => b.t < a.t)
      (mergeCache (mergeCache c n now) n now) :=
    mergeCache_sorted_nodup _ n now
  have hs2 : List.Pairwise (fun a b : CacheEntry => b.t < a.t)
      (mergeCache c n now) := mergeCache_sorted_nodup c n now
  have hn1 : (mergeCache (mergeCache c n now) n now).Nodup :=
    (mergeCache_tkeys_nodup _ n now).of_map _
  have hn2 : (mergeCache c n now).Nodup :=
    (mergeCache_tkeys_nodup c n now).of_map _
  have hmem : ∀ e, e ∈ mergeCache (mergeCache c n now) n now
      ↔ e ∈ mergeCache c n now := by
    intro e
    rw [mem_mergeCache, mem_mergeCache]
    constructor
    · rintro ⟨h1, h2⟩
      refine ⟨?_, h2⟩
      have hg : getT (buildMap (mergeCache c n now ++ n)) e.t = some e := by
        unfold getT
        exact findT_eq_of_mem _ _ (buildMap_tkeys_nodup _) h1
      rw [getT_agree c n now e.t h2] at hg
      exact (getT_eq_someE _ _ _ hg).1
    · rintro ⟨h1, h2⟩
      refine ⟨?_, h2⟩
      have hg : getT (buildMap (c ++ n)) e.t = some e := by
        unfold getT
        exact findT_eq_of_mem _ _ (buildMap_tkeys_nodup _) h1
      rw [← getT_agree c n now e.t h2] at hg
      exact (getT_eq_someE _ _ _ hg).1
  have hperm := (List.perm_ext_iff_of_nodup hn1 hn2).mpr hmem
  exact List.eq_of_perm_of_sorted hperm hs1 hs2

/-- Claim C5: the merged cache is strictly descending by timestamp with
no two entries sharing one; every timestamp that occurs in the incoming
list (whose entries carry distinct timestamps, the cache invariant)
resolves to the incoming entry (incoming wins); no resulting entry is
older than now - retentionWindow (3 hours); and merging the same
incoming set a second time at the same now yields the same result. -/
theorem C5_merge_contract (c n : List CacheEntry) (now : Int)
    (hn : (tkeys n).Nodup) :
    List.Pairwise (fun a b => b.t < a.t) (mergeCache c n now) ∧
    (∀ e ∈ mergeCache c n now, now - CACHE_DURATION ≤ e.t) ∧
    (∀ e ∈ n, ∀ e2 ∈ mergeCache c n now, e2.t = e.t → e2 = e) ∧
    mergeCache (mergeCache c n now) n now = mergeCache c n now := by
  refine ⟨mergeCache_sorted_nodup c n now, ?_, ?_, mergeCache_idem c n now⟩
  · intro e he
    exact ((mem_mergeCache c n now e).mp he).2
  · intro e he e2 he2 ht
    exact mergeCache_incoming_wins c n now hn e he e2 he2 ht

/-- Claim C5, witness: the worked example — merging incoming readings at
timestamps 1000 (colliding with the existing cache) and 1300 at now =
1300 yields the incoming entries sorted descending, and re-merging the
same incoming set changes nothing. -/
theorem C5_merge_contract_witness :
    mergeCache [⟨100, 1000⟩] [⟨110, 1000⟩, ⟨120, 1300⟩] 1300
        = [⟨120, 1300⟩, ⟨110, 1000⟩] ∧
    mergeCache (mergeCache [⟨100, 1000⟩] [⟨110, 1000⟩, ⟨120, 1300⟩] 1300)
        [⟨110, 1000⟩, ⟨120, 1300⟩] 1300
      = mergeCache [⟨100, 1000⟩] [⟨110, 1000⟩, ⟨120, 1300⟩] 1300 :=
  ⟨by decide,
   (C5_merge_contract [⟨100, 1000⟩] [⟨110, 1000⟩, ⟨120, 1300⟩] 1300
     (by decide)).2.2.2⟩

end PebDx
